import Mathlib

/-!
Verification development for the media2vid temp-segment caching and
incremental re-render/merge engine.  The Python sources are shallowly
embedded: pure fragments become Lean functions, filesystem state and the
external encoder/probe collaborators become explicit arguments (records
and boolean oracles).  Machine floats in the source appear only in
duration comparisons; durations are modelled as rationals.
-/

namespace Media2vid

/-! ## Python string primitives used by the embedded functions -/

/-- Model of Python `str.lower()` for the ASCII strings media2vid handles. -/
def pyLower (s : String) : String := ⟨s.toList.map Char.toLower⟩

/-- Strip whitespace from both ends of a character list (Python `str.strip()`). -/
def pyStripChars (l : List Char) : List Char :=
  ((l.dropWhile Char.isWhitespace).reverse.dropWhile Char.isWhitespace).reverse

/-- Model of Python `str.strip()`. -/
def pyStrip (s : String) : String := ⟨pyStripChars s.toList⟩

/-- Index of the last occurrence of a character, if any. -/
def lastIndexOf (c : Char) : List Char → Option Nat
  | [] => none
  | x :: xs =>
    match lastIndexOf c xs with
    | some i => some (i + 1)
    | none => if x = c then some 0 else none

/-- Split a character list at the first occurrence of a dash
(Python `part.split('-', 1)`; only ever called when a dash is present). -/
def splitFirstDash : List Char → List Char × List Char
  | [] => ([], [])
  | c :: rest =>
    if c = '-' then ([], rest)
    else
      let p := splitFirstDash rest
      (c :: p.1, p.2)

/-- Numeric value of a list of decimal digit characters. -/
def digitsVal (l : List Char) : Nat :=
  l.foldl (fun a c => a * 10 + (c.toNat - 48)) 0

/-- Model of Python `int(s)` on already-stripped input: an optional sign
followed by one or more decimal digits; anything else raises `ValueError`,
modelled as `none`.  (Underscore separators and non-ASCII digits, which
CPython also accepts, are outside the modelled input space.) -/
def pyInt (s : String) : Option Int :=
  match s.toList with
  | [] => none
  | '+' :: rest =>
    if !rest.isEmpty && rest.all Char.isDigit then some (digitsVal rest) else none
  | '-' :: rest =>
    if !rest.isEmpty && rest.all Char.isDigit then some (-(digitsVal rest : Int)) else none
  | l => if l.all Char.isDigit then some (digitsVal l) else none

/-! ## Media Classifier sort key (`src/file_utils.py`, `extract_person_name`)

The source computes the sort key with
`re.search(r' - (.+)\.[^.]+$', filename)`.  `re.search` returns the match
starting at the leftmost feasible position; the trailing `[^.]+$` forces the
`\.` to match the final dot of the string, so the captured group runs from
the first viable occurrence of the literal `" - "` up to the last dot, and
must be non-empty and free of newlines (`.` does not match a newline). -/

/-- The three characters of the literal separator pattern. -/
def sepChars : List Char := [' ', '-', ' ']

/-- Does a match of the source regex begin at absolute position `p`, given
that `d` is the index of the last dot of `l`?  Requires the literal
separator at `p`, a non-empty captured group before the final dot, and no
newline inside the group. -/
def matchBeginsAt (l : List Char) (d p : Nat) : Bool :=
  sepChars.isPrefixOf (l.drop p) && decide (p + 3 < d) &&
    ((l.drop (p + 3)).take (d - (p + 3))).all (fun c => c != '\n')

/-- Leftmost match position of the regex, scanning positions in order as
`re.search` does. -/
def searchFrom (l : List Char) (d : Nat) : Nat → List Char → Option Nat
  | _, [] => none
  | p, _ :: rest =>
    if matchBeginsAt l d p then some p else searchFrom l d (p + 1) rest

/-- Embedding of `extract_person_name` (src/src/file_utils.py:9-29):
`match = re.search(r' - (.+)\.[^.]+$', filename)`;
`return match.group(1).lower() if match else filename.lower()`. -/
def extract_person_name (s : String) : String :=
  match lastIndexOf '.' s.toList with
  | none => pyLower s
  | some d =>
    if d + 1 < s.toList.length then
      match searchFrom s.toList d 0 s.toList with
      | some p => ⟨((s.toList.drop (p + 3)).take (d - (p + 3))).map Char.toLower⟩
      | none => pyLower s
    else pyLower s

/-! ## Range Selector (`src/utils.py`, `parse_range` and `format_range_indicator`) -/

/-- Split a character list on commas, keeping empty pieces
(Python `s.split(',')`). -/
def splitOnCommaAux : List Char → List Char → List (List Char)
  | [], acc => [acc.reverse]
  | c :: rest, acc =>
    if c = ',' then acc.reverse :: splitOnCommaAux rest []
    else splitOnCommaAux rest (c :: acc)

/-- The comma-separated terms of a range expression, each stripped
(`[part.strip() for part in range_str.split(',')]`). -/
def splitParts (s : String) : List String :=
  (splitOnCommaAux s.toList []).map (fun l => pyStrip ⟨l⟩)

/-- Indices contributed by one dash term of `parse_range`
(src/src/utils.py:128-157): parse both sides with `int` (an empty right
side resolves to `max_files`), swap if backwards, raise the start to at
least 1, lower the end to at most `max_files`, and take the integers of
the resulting (possibly empty) span.  A `ValueError` on either side skips
the term. -/
def rangeTermIndices (startStr endStr : String) (max_files : Nat) : List Nat :=
  match pyInt startStr with
  | none => []
  | some start =>
    match (if endStr.toList.isEmpty then some (max_files : Int) else pyInt endStr) with
    | none => []
    | some e =>
      let p := if start > e then (e, start) else (start, e)
      let s := max 1 p.1
      let e := min (max_files : Int) p.2
      if s > e then [] else List.range' s.toNat (e - s + 1).toNat

/-- Index contributed by a bare-integer term of `parse_range`
(src/src/utils.py:158-167): clamp into `[1, max_files]`; a `ValueError`
skips the term. -/
def singleTermIndex (part : String) (max_files : Nat) : Option Nat :=
  (pyInt part).map (fun n => (max 1 (min (max_files : Int) n)).toNat)

/-- Accumulate one stripped term of `parse_range` into the index set
(the Python `set` is modelled as a duplicate-free list built with
`List.insert`). -/
def addTerm (max_files : Nat) (acc : List Nat) (part : String) : List Nat :=
  if part.toList.isEmpty then acc
  else if part.toList.contains '-' then
    let p := splitFirstDash part.toList
    (rangeTermIndices (pyStrip ⟨p.1⟩) (pyStrip ⟨p.2⟩) max_files).foldl
      (fun acc i => acc.insert i) acc
  else
    match singleTermIndex part max_files with
    | some n => acc.insert n
    | none => acc

/-- Embedding of `parse_range` (src/src/utils.py:86-170): strip, empty
means all of `1..max_files`, otherwise accumulate the comma-separated
terms into a set and return it as a sorted list. -/
def parse_range (range_str : String) (max_files : Nat) : List Nat :=
  if (pyStrip range_str).toList.isEmpty then List.range' 1 max_files
  else List.insertionSort (· ≤ ·)
    ((splitParts (pyStrip range_str)).foldl (addTerm max_files) [])

/-- Rendering of one stripped term by `format_range_indicator`
(src/src/utils.py:62-80): `none` models the `continue` on an empty term. -/
def formatPart (max_files : Nat) (part : String) : Option String :=
  if part.toList.isEmpty then none
  else if part.toList.contains '-' then
    some (if (pyStrip ⟨(splitFirstDash part.toList).2⟩).toList.isEmpty then
            pyStrip ⟨(splitFirstDash part.toList).1⟩ ++ "_" ++ Nat.repr max_files
          else
            pyStrip ⟨(splitFirstDash part.toList).1⟩ ++ "_" ++
              pyStrip ⟨(splitFirstDash part.toList).2⟩)
  else some part

/-- Python `",".join(parts)`. -/
def joinComma : List String → String
  | [] => ""
  | [x] => x
  | x :: rest => x ++ "," ++ joinComma rest

/-- Embedding of `format_range_indicator` (src/src/utils.py:36-84). -/
def format_range_indicator (range_str : String) (operation : String) (max_files : Nat) : String :=
  if (pyStrip range_str).toList.isEmpty then operation ++ "0"
  else operation ++ joinComma ((splitParts range_str).filterMap (formatPart max_files))

/-! ## Segment Cache (`src/cache_system.py`)

Filesystem state, the stored/current fingerprints and the probe results of
the external inspection collaborator are explicit arguments; durations and
modification times are rationals. -/

/-- Embedding of `normalize_codec_name` (src/src/cache_system.py:18-50):
`codec_map.get(codec_name.lower(), codec_name.lower())`. -/
def normalize_codec_name (codec_name : String) : String :=
  let lc := pyLower codec_name
  if lc = "libx264" then "h264"
  else if lc = "h264_nvenc" then "h264"
  else if lc = "h264_qsv" then "h264"
  else if lc = "libx265" then "hevc"
  else if lc = "hevc_nvenc" then "hevc"
  else if lc = "hevc_qsv" then "hevc"
  else if lc = "libfdk_aac" then "aac"
  else if lc = "aac" then "aac"
  else if lc = "libmp3lame" then "mp3"
  else if lc = "mp3" then "mp3"
  else if lc = "libopus" then "opus"
  else if lc = "opus" then "opus"
  else lc

/-- The `expected` sub-record of a cache fingerprint, restricted to the
fields `is_cached_file_valid` reads (`none` models an absent key, so
`stored_expected.get(param)` is `Option.get?`-style lookup). -/
structure ExpectedParams where
  video_codec : Option String := none
  audio_codec : Option String := none
  resolution : Option String := none
  duration : Option ℚ := none
  pixel_format : Option String := none
  sample_rate : Option String := none
deriving DecidableEq

/-- Probe result for the first video stream of the artifact
(`get_stream_info(...)['video']`). -/
structure VideoStreamInfo where
  codec : String
  resolution : String
  pix_fmt : String
deriving DecidableEq

/-- Probe result for the first audio stream of the artifact
(`get_stream_info(...)['audio']`). -/
structure AudioStreamInfo where
  codec : String
  sample_rate : String
deriving DecidableEq

/-- Combined probe result (`get_stream_info`); a tool failure yields
`none` for both streams. -/
structure StreamInfo where
  video : Option VideoStreamInfo
  audio : Option AudioStreamInfo
deriving DecidableEq

/-- The filesystem and collaborator state consulted by one
`is_cached_file_valid` call. -/
structure CacheFsState where
  use_cache : Bool
  tempExists : Bool
  tempSize : Nat
  tempMtime : ℚ
  sourceMtime : Option ℚ
  sidecarExists : Bool
  sidecarParse : Option ExpectedParams
  probe : StreamInfo
  probedDuration : Option ℚ

/-- Step-4 comparison of the six key parameters
(src/src/cache_system.py:196-201), in the order of
`key_params_to_check`; `Option` equality models
`stored_expected.get(param) != current_expected.get(param)`. -/
def keyParamsMatch (stored current : ExpectedParams) : Bool :=
  stored.video_codec == current.video_codec &&
  stored.audio_codec == current.audio_codec &&
  stored.resolution == current.resolution &&
  stored.duration == current.duration &&
  stored.pixel_format == current.pixel_format &&
  stored.sample_rate == current.sample_rate

/-- Step-5 resolution check (src/src/cache_system.py:207-216): skipped
when no resolution is expected; fails when a resolution is expected but
the probe reports no video stream. -/
def checkResolution (expected : Option String) (video : Option VideoStreamInfo) : Bool :=
  match expected, video with
  | none, _ => true
  | some er, some v => v.resolution == er
  | some _, none => false

/-- Step-5 video codec check (src/src/cache_system.py:219-227): only
performed when a codec is expected AND the probe reports a video stream. -/
def checkVideoCodec (expected : Option String) (video : Option VideoStreamInfo) : Bool :=
  match expected, video with
  | some ec, some v => normalize_codec_name ec == normalize_codec_name v.codec
  | _, _ => true

/-- Step-5 pixel format check (src/src/cache_system.py:230-235). -/
def checkPixelFormat (expected : Option String) (video : Option VideoStreamInfo) : Bool :=
  match expected, video with
  | some ep, some v => v.pix_fmt == ep
  | _, _ => true

/-- Step-5 audio codec check (src/src/cache_system.py:238-246): only
performed when a codec is expected AND the probe reports an audio stream. -/
def checkAudioCodec (expected : Option String) (audio : Option AudioStreamInfo) : Bool :=
  match expected, audio with
  | some ec, some a => normalize_codec_name ec == normalize_codec_name a.codec
  | _, _ => true

/-- Step-5 sample rate check (src/src/cache_system.py:249-254). -/
def checkSampleRate (expected : Option String) (audio : Option AudioStreamInfo) : Bool :=
  match expected, audio with
  | some es, some a => a.sample_rate == es
  | _, _ => true

/-- Step-5 duration check (src/src/cache_system.py:257-273): ±0.5s
tolerance; a failing duration probe does NOT fail validation. -/
def checkDuration (expected probed : Option ℚ) : Bool :=
  match expected, probed with
  | some e, some d => decide (|d - e| ≤ 1/2)
  | _, _ => true

/-- Embedding of `is_cached_file_valid` (src/src/cache_system.py:144-280),
mirroring the validation order of the source: global cache flag, artifact
existence and size, modification times, sidecar existence and parse,
step-4 key-parameter equality, then the step-5 probe checks. -/
def is_cached_file_valid (st : CacheFsState) (current : ExpectedParams) : Bool :=
  if !st.use_cache then false
  else if !st.tempExists || st.tempSize == 0 then false
  else
    match st.sourceMtime with
    | none => false
    | some smt =>
      if st.tempMtime ≤ smt then false
      else if !st.sidecarExists then false
      else
        match st.sidecarParse with
        | none => false
        | some stored =>
          if !(keyParamsMatch stored current) then false
          else
            checkResolution current.resolution st.probe.video &&
            checkVideoCodec current.video_codec st.probe.video &&
            checkPixelFormat current.pixel_format st.probe.video &&
            checkAudioCodec current.audio_codec st.probe.audio &&
            checkSampleRate current.sample_rate st.probe.audio &&
            checkDuration current.duration st.probedDuration

/-! ## Artifact and sidecar paths -/

/-- Last path component (Python `Path(p).name`). -/
def pathBaseName (p : String) : String :=
  match lastIndexOf '/' p.toList with
  | some i => ⟨p.toList.drop (i + 1)⟩
  | none => p

/-- `Path(name).stem` for a base name: strip the extension when the last
dot is neither the first nor the last character. -/
def pathStem (name : String) : String :=
  match lastIndexOf '.' name.toList with
  | some i => if 0 < i ∧ i + 1 < name.toList.length then ⟨name.toList.take i⟩ else name
  | none => name

/-- `Path(name).suffix` for a base name. -/
def pathSuffix (name : String) : String :=
  match lastIndexOf '.' name.toList with
  | some i => if 0 < i ∧ i + 1 < name.toList.length then ⟨name.toList.drop i⟩ else ""
  | none => ""

/-- `Path(p).with_suffix(suffix)`: replace the extension of the last path
component. -/
def pyWithSuffix (p : String) (suffix : String) : String :=
  match lastIndexOf '/' p.toList with
  | some i => ⟨p.toList.take (i + 1)⟩ ++ pathStem ⟨p.toList.drop (i + 1)⟩ ++ suffix
  | none => pathStem p ++ suffix

/-- Deterministic artifact path for the plan slot of (1-based) index `n`:
`Path("temp_") / f"temp_{index-1}.mp4"` (src/src/utils.py:191-195). -/
def tempPathFor (n : Nat) : String :=
  "temp_" ++ "/" ++ "temp_" ++ Nat.repr (n - 1) ++ ".mp4"

/-- Embedding of `save_cache_info` (src/src/cache_system.py:282-300): the
sidecar write that would be attempted, as `some (sidecar path, record)`;
when caching is globally disabled nothing is persisted (`none`). -/
def save_cache_info (use_cache : Bool) (temp_file_path : String) (cache_info : ExpectedParams) :
    Option (String × ExpectedParams) :=
  if !use_cache then none
  else some (pyWithSuffix temp_file_path ".cache", cache_info)

/-! ## Processing plan, merge selection and the concatenation manifest
(`src/utils.py` `determine_files_to_process`, `src/media2vid.py`
`create_final_output`) -/

/-- One entry of the processing order: `(index, filename, file_type)`. -/
structure Slot where
  index : Nat
  filename : String
  file_type : String
deriving DecidableEq

/-- The merge-mode loop of `determine_files_to_process`
(src/src/utils.py:188-199): walk the processing order; for each selected
slot append its artifact path to the merge list and, when the artifact
does not exist, the slot to the must-produce list.  Returns
`(files_to_create, temp_files_for_merge)`. -/
def mergeScan (selected : List Nat) (tempExists : String → Bool) :
    List Slot → List Slot × List String
  | [] => ([], [])
  | s :: rest =>
    let p := mergeScan selected tempExists rest
    if selected.contains s.index then
      (if tempExists (tempPathFor s.index) then p.1 else s :: p.1,
       tempPathFor s.index :: p.2)
    else p

/-- Embedding of `determine_files_to_process` (src/src/utils.py:172-214). -/
def determine_files_to_process (action : String) (selected_indices : List Nat)
    (processing_order : List Slot) (tempExists : String → Bool) :
    List Slot × List String :=
  if action = "M" then
    let p := mergeScan selected_indices tempExists processing_order
    if p.1.isEmpty then ([], p.2) else (p.1, p.2)
  else if action = "R" then
    (processing_order.filter (fun s => selected_indices.contains s.index), [])
  else (processing_order, [])

/-- The single-quote character of the manifest line syntax. -/
def sq : String := String.singleton (Char.ofNat 39)

/-- One manifest line, without the trailing newline:
`f"file {relative_path}"` with the path quoted
(src/media2vid.py:978-981). -/
def manifestLine (temp_file : String) : String :=
  "file " ++ sq ++ pathBaseName temp_file ++ sq

/-- The temp-file list built by `create_final_output` when no pre-built
merge list is given (src/media2vid.py:968-975): artifact paths of the
processed slots, silently skipping any that do not exist on disk. -/
def buildTempFiles (tempExists : String → Bool) : List Slot → List String
  | [] => []
  | s :: rest =>
    if tempExists (tempPathFor s.index) then
      tempPathFor s.index :: buildTempFiles tempExists rest
    else buildTempFiles tempExists rest

/-- The concatenation manifest written by `create_final_output`
(src/media2vid.py:964-984): one line per temp file, taking the
pre-built merge list when it is non-empty (Python truthiness of
`temp_files_for_merge`) and otherwise the existence-filtered list built
from the processed slots. -/
def manifestEntries (files_processed : List Slot) (temp_files_for_merge : List String)
    (tempExists : String → Bool) : List String :=
  (if temp_files_for_merge.isEmpty then buildTempFiles tempExists files_processed
   else temp_files_for_merge).map manifestLine

/-! ## Audio-slot production (`src/processors/audio_processor.py`,
`src/file_utils.py` `find_audio_background`) -/

/-- One entry of the background-search directory listing
(`search_dir.iterdir()` order), with its `is_file()` status. -/
structure DirEntry where
  name : String
  isFile : Bool

/-- Embedding of `find_audio_background` (src/src/file_utils.py:192-235):
explicit override path when it exists, else the first same-stem PNG
(case-insensitive), else the first `audio_background` PNG
(case-insensitive), else `none` (solid-black background). -/
def find_audio_background (filename : String) (custom_bg_path : Option String)
    (fsExists : String → Bool) (dir : List DirEntry) : Option String :=
  let base := pathStem filename
  let sameName := dir.find? (fun e =>
    e.isFile && pyLower (pathSuffix e.name) == ".png" &&
      pyLower (pathStem e.name) == pyLower base)
  let reserved := dir.find? (fun e =>
    e.isFile && pyLower (pathSuffix e.name) == ".png" &&
      pyLower (pathStem e.name) == "audio_background")
  let searchResult :=
    match sameName with
    | some e => some e.name
    | none =>
      match reserved with
      | some e => some e.name
      | none => none
  match custom_bg_path with
  | some cp => if fsExists cp then some cp else searchResult
  | none => searchResult

/-- Embedding of `process_audio_file`
(src/src/processors/audio_processor.py:40-76).  The external encoder is
the oracle `run`, invoked on `some background` for the real-background
command and on `none` for the solid-black command; the result records the
overall success flag and the encoder invocations in order. -/
def process_audio_file (filename : String) (custom_bg_path : Option String)
    (fsExists : String → Bool) (dir : List DirEntry) (run : Option String → Bool) :
    Bool × List (Option String) :=
  match find_audio_background (pathBaseName filename) custom_bg_path fsExists dir with
  | some bg =>
    if run (some bg) then (true, [some bg])
    else (run none, [some bg, none])
  | none => (run none, [none])

/-- Per-term contribution in the amended reading of the range grammar: a
bare integer contributes itself clamped into `[1, max_files]`; a dash term
resolves an empty right side to `max_files` and contributes the integers
from `max 1 (min A B)` to `min max_files (max A B)` (nothing when that
span is empty); malformed and empty terms contribute nothing. -/
def termContrib (max_files : Nat) (part : String) : Finset Nat :=
  if part.toList.isEmpty then ∅
  else if part.toList.contains '-' then
    let p := splitFirstDash part.toList
    match pyInt (pyStrip ⟨p.1⟩),
        (if (pyStrip ⟨p.2⟩).toList.isEmpty then some (max_files : Int)
         else pyInt (pyStrip ⟨p.2⟩)) with
    | some a, some b =>
      Finset.Icc (max 1 (min a b)).toNat (min (max_files : Int) (max a b)).toNat
    | _, _ => ∅
  else
    match pyInt part with
    | some n => {(max 1 (min (max_files : Int) n)).toNat}
    | none => ∅

/-! ### Concrete fingerprints, probe results and filesystem states used by
counterexamples and witnesses -/

/-- A full fingerprint as produced for a standard video slot. -/
def fpAll : ExpectedParams :=
  { video_codec := some "libx264", audio_codec := some "aac",
    resolution := some "1920x1080", duration := some 15,
    pixel_format := some "yuv420p", sample_rate := some "48000" }

/-- A state in which every validation step passes: the artifact exists,
is newer than the source, the stored fingerprint equals `fpAll`, and the
probe reports matching streams (the video codec as the canonical "h264"
for the recorded "libx264"). -/
def stValid : CacheFsState :=
  { use_cache := true, tempExists := true, tempSize := 1024, tempMtime := 2,
    sourceMtime := some 1, sidecarExists := true, sidecarParse := some fpAll,
    probe := { video := some { codec := "h264", resolution := "1920x1080",
                               pix_fmt := "yuv420p" },
               audio := some { codec := "aac", sample_rate := "48000" } },
    probedDuration := some 15 }

/-- A fingerprint that expects only a video codec. -/
def fpCodecOnly : ExpectedParams := { video_codec := some "libx264" }

/-- A state whose steps 1-4 pass against `fpCodecOnly` but whose probe
reports no stream information at all. -/
def stMissingStream : CacheFsState :=
  { use_cache := true, tempExists := true, tempSize := 1, tempMtime := 2,
    sourceMtime := some 1, sidecarExists := true, sidecarParse := some fpCodecOnly,
    probe := { video := none, audio := none }, probedDuration := none }

/-- The current fingerprint after switching the encoder backend to the
hardware-accelerated variant. -/
def fpCurrentNvenc : ExpectedParams := { video_codec := some "h264_nvenc" }

/-- A state holding a fingerprint recorded with "libx264" while the
probe reports the canonical "h264"; steps 1-3 pass. -/
def stBackendSwitch : CacheFsState :=
  { use_cache := true, tempExists := true, tempSize := 1, tempMtime := 2,
    sourceMtime := some 1, sidecarExists := true, sidecarParse := some fpCodecOnly,
    probe := { video := some { codec := "h264", resolution := "1920x1080",
                               pix_fmt := "yuv420p" },
               audio := none },
    probedDuration := none }

/-!
# Theorems

Helper lemmas first, then for each specification claim its theorem and,
where applicable, counterexample and witness.
-/

/-! ### Lemmas about the sort-key regex search -/

theorem lastIndexOf_eq_none {c : Char} {l : List Char} (h : c ∉ l) :
    lastIndexOf c l = none := by
  induction l with
  | nil => rfl
  | cons x xs ih =>
    have hx : ¬ x = c := fun hh => h (hh ▸ List.mem_cons_self x xs)
    have hxs : c ∉ xs := fun hh => h (List.mem_cons_of_mem _ hh)
    simp [lastIndexOf, ih hxs, hx]

theorem lastIndexOf_append_cons (c : Char) (l₁ l₂ : List Char) (h : c ∉ l₂) :
    lastIndexOf c (l₁ ++ c :: l₂) = some l₁.length := by
  induction l₁ with
  | nil => simp [lastIndexOf, lastIndexOf_eq_none h]
  | cons x xs ih => simp [lastIndexOf, ih]

theorem searchFrom_eq_none (l : List Char) (d : Nat)
    (h : ∀ q, matchBeginsAt l d q = false) :
    ∀ (p : Nat) (rest : List Char), searchFrom l d p rest = none := by
  intro p rest
  induction rest generalizing p with
  | nil => rfl
  | cons x rest ih => simp [searchFrom, h p, ih]

theorem searchFrom_eq_some (l : List Char) (d p₀ : Nat)
    (hlt : p₀ < l.length)
    (hfail : ∀ q, q < p₀ → matchBeginsAt l d q = false)
    (hhit : matchBeginsAt l d p₀ = true) :
    ∀ (p : Nat) (rest : List Char), p + rest.length = l.length → p ≤ p₀ →
      searchFrom l d p rest = some p₀ := by
  intro p rest
  induction rest generalizing p with
  | nil =>
    intro hlen hle
    simp at hlen
    omega
  | cons x rest ih =>
    intro hlen hle
    rcases Nat.eq_or_lt_of_le hle with hp | hp
    · subst hp
      simp [searchFrom, hhit]
    · simp only [searchFrom, hfail p hp, if_false]
      exact ih (p + 1) (by simp at hlen; omega) hp

theorem sepChars_isPrefixOf_append (t : List Char) :
    sepChars.isPrefixOf (sepChars ++ t) = true := by
  simp [sepChars, List.isPrefixOf]

theorem extract_person_name_found (s : String) (d p : Nat)
    (hd : lastIndexOf '.' s.toList = some d)
    (hlt : d + 1 < s.toList.length)
    (hsearch : searchFrom s.toList d 0 s.toList = some p) :
    extract_person_name s =
      ⟨((s.toList.drop (p + 3)).take (d - (p + 3))).map Char.toLower⟩ := by
  simp only [extract_person_name, hd, hsearch, if_pos hlt]

/-- The fallback in full generality: whenever no position admits a viable
match against the final extension dot — which covers the pattern being
absent, the pattern present but with an empty captured name, a newline in
every candidate name, a missing extension dot, and a trailing dot — the
sort key is the lowercased full filename. -/
theorem extract_person_name_no_viable (s : String)
    (h : ∀ d, lastIndexOf '.' s.toList = some d → d + 1 < s.toList.length →
      ∀ p, matchBeginsAt s.toList d p = false) :
    extract_person_name s = pyLower s := by
  unfold extract_person_name
  split
  · rfl
  · rename_i d hd
    split
    · rename_i hlt
      rw [searchFrom_eq_none s.toList d (h d hd hlt) 0 s.toList]
    · rfl

theorem extract_person_name_fallback (s : String)
    (h : ∀ q, sepChars.isPrefixOf (s.toList.drop q) = false) :
    extract_person_name s = pyLower s := by
  have hfail : ∀ d q, matchBeginsAt s.toList d q = false := by
    intro d q
    unfold matchBeginsAt
    rw [h q]
    simp
  unfold extract_person_name
  split
  · rfl
  · rename_i d hd
    rw [searchFrom_eq_none s.toList d (hfail d) 0 s.toList]
    split <;> rfl

/-- C2 (amended): for every video/audio filename the derived sort key is
the lowercased substring after the FIRST viable occurrence of the literal
pattern " - " (not the last), running up to (but not including) the final
extension dot — so the captured name may itself contain further " - "
occurrences; when no viable occurrence exists — the pattern absent, no
name before the final extension dot, or no extension — the sort key is
the lowercased full filename.  Stated structurally: for a filename
`pre ++ " - " ++ name ++ "." ++ ext` whose earlier positions admit no
match, the key is the lowercased `name`; a filename with no viable match
position against its final dot (and in particular a filename in which the
pattern never occurs at all) falls back to the lowercased full filename;
and the three quoted examples hold as stated, including the
pattern-present-but-empty-name case "Title - .mp4". -/
theorem extract_person_name_first_sep :
    (∀ (pre name ext : List Char),
      name ≠ [] → '\n' ∉ name → ext ≠ [] → '.' ∉ ext →
      (∀ p, p < pre.length →
        matchBeginsAt (pre ++ sepChars ++ name ++ '.' :: ext)
          (pre.length + 3 + name.length) p = false) →
      extract_person_name ⟨pre ++ sepChars ++ name ++ '.' :: ext⟩ =
        ⟨name.map Char.toLower⟩)
    ∧ (∀ s : String,
        (∀ d, lastIndexOf '.' s.toList = some d → d + 1 < s.toList.length →
          ∀ p, matchBeginsAt s.toList d p = false) →
        extract_person_name s = pyLower s)
    ∧ (∀ s : String, (∀ p, sepChars.isPrefixOf (s.toList.drop p) = false) →
        extract_person_name s = pyLower s)
    ∧ extract_person_name "Interview - John Doe.mp4" = "john doe"
    ∧ extract_person_name "novalidpattern.mp4" = "novalidpattern.mp4"
    ∧ extract_person_name "Title - .mp4" = "title - .mp4" := by
  refine ⟨?_, fun s h => extract_person_name_no_viable s h,
    fun s h => extract_person_name_fallback s h, by decide, by decide, by decide⟩
  · intro pre name ext hname hnl hext hdot hpre
    have hd : lastIndexOf '.' (pre ++ sepChars ++ name ++ '.' :: ext) =
        some (pre.length + 3 + name.length) := by
      have h2 : (pre ++ sepChars ++ name).length = pre.length + 3 + name.length := by
        simp [sepChars]
        omega
      rw [show pre ++ sepChars ++ name ++ '.' :: ext =
            (pre ++ sepChars ++ name) ++ '.' :: ext by simp]
      rw [lastIndexOf_append_cons _ _ _ hdot, h2]
    have hlen : (pre ++ sepChars ++ name ++ '.' :: ext).length =
        pre.length + 3 + name.length + 1 + ext.length := by
      simp [sepChars]
      omega
    have hgroup : ((pre ++ sepChars ++ name ++ '.' :: ext).drop (pre.length + 3)).take
        ((pre.length + 3 + name.length) - (pre.length + 3)) = name := by
      rw [show pre ++ sepChars ++ name ++ '.' :: ext =
            (pre ++ sepChars) ++ (name ++ '.' :: ext) by simp]
      rw [List.drop_left' (by simp [sepChars] : (pre ++ sepChars).length = pre.length + 3)]
      rw [show (pre.length + 3 + name.length) - (pre.length + 3) = name.length by omega]
      exact List.take_left' rfl
    have hne : name.length ≠ 0 := fun hh => hname (List.eq_nil_of_length_eq_zero hh)
    have hext0 : ext.length ≠ 0 := fun hh => hext (List.eq_nil_of_length_eq_zero hh)
    have hhit : matchBeginsAt (pre ++ sepChars ++ name ++ '.' :: ext)
        (pre.length + 3 + name.length) pre.length = true := by
      unfold matchBeginsAt
      rw [show ((pre ++ sepChars ++ name ++ '.' :: ext)).drop pre.length =
            sepChars ++ (name ++ '.' :: ext) by
          rw [show pre ++ sepChars ++ name ++ '.' :: ext =
                pre ++ (sepChars ++ (name ++ '.' :: ext)) by simp]
          exact List.drop_left pre _]
      rw [sepChars_isPrefixOf_append]
      have h3 : (((pre ++ sepChars ++ name ++ '.' :: ext)).drop (pre.length + 3)).take
          ((pre.length + 3 + name.length) - (pre.length + 3)) = name := hgroup
      rw [h3]
      have h4 : name.all (fun c => c != '\n') = true := by
        simp only [List.all_eq_true, bne_iff_ne, ne_eq]
        intro c hc
        exact fun hh => hnl (hh ▸ hc)
      rw [h4]
      simp only [Bool.and_true, Bool.true_and, decide_eq_true_eq]
      omega
    have hsearch : searchFrom (pre ++ sepChars ++ name ++ '.' :: ext)
        (pre.length + 3 + name.length) 0 (pre ++ sepChars ++ name ++ '.' :: ext) =
        some pre.length := by
      exact searchFrom_eq_some _ _ pre.length (by omega) (fun q hq => hpre q hq) hhit
        0 _ (by simp) (by omega)
    have hlt2 : (pre.length + 3 + name.length) + 1 <
        (⟨pre ++ sepChars ++ name ++ '.' :: ext⟩ : String).toList.length := by
      have he : (⟨pre ++ sepChars ++ name ++ '.' :: ext⟩ : String).toList =
          pre ++ sepChars ++ name ++ '.' :: ext := rfl
      rw [he, hlen]
      omega
    rw [extract_person_name_found ⟨pre ++ sepChars ++ name ++ '.' :: ext⟩
      (pre.length + 3 + name.length) pre.length hd hlt2 hsearch]
    exact congrArg String.mk (congrArg (List.map Char.toLower) hgroup)

/-- C2 counterexample: the claim predicts the sort key of
"A - B - C.mp4" to be "c" (substring after the LAST " - "), but the
source regex matches from the first " - ", giving "b - c". -/
theorem extract_person_name_last_sep_counterexample :
    extract_person_name "A - B - C.mp4" = "b - c" ∧
      extract_person_name "A - B - C.mp4" ≠ "c" := by
  constructor
  · decide
  · decide

/-- Witness for `extract_person_name_first_sep` at the claim's own
example "Interview - John Doe.mp4". -/
theorem extract_person_name_first_sep_witness :
    extract_person_name ⟨"Interview".toList ++ sepChars ++ "John Doe".toList ++
        '.' :: "mp4".toList⟩ = ⟨"John Doe".toList.map Char.toLower⟩ :=
  extract_person_name_first_sep.1 "Interview".toList "John Doe".toList "mp4".toList
    (by decide) (by decide) (by decide) (by decide) (by decide)

/-! ### Lemmas about `parse_range` -/

theorem mem_foldl_insert (l : List Nat) (acc : List Nat) (k : Nat) :
    k ∈ l.foldl (fun acc i => acc.insert i) acc ↔ k ∈ acc ∨ k ∈ l := by
  induction l generalizing acc with
  | nil => simp
  | cons x xs ih =>
    simp only [List.foldl_cons, ih, List.mem_insert_iff, List.mem_cons]
    tauto

theorem nodup_foldl_insert (l : List Nat) :
    ∀ acc : List Nat, acc.Nodup → (l.foldl (fun acc i => acc.insert i) acc).Nodup := by
  induction l with
  | nil => exact fun acc h => h
  | cons x xs ih => exact fun acc h => ih (acc.insert x) h.insert

theorem rangeTermIndices_eq (A B : Int) (a b : String) (m : Nat)
    (hA : pyInt a = some A)
    (hB : (if b.toList.isEmpty then some (m : Int) else pyInt b) = some B) :
    rangeTermIndices a b m =
      if max 1 (min A B) > min (m : Int) (max A B) then []
      else List.range' (max 1 (min A B)).toNat
        (min (m : Int) (max A B) - max 1 (min A B) + 1).toNat := by
  unfold rangeTermIndices
  rw [hA, hB]
  by_cases hAB : A > B
  · have h1 : min A B = B := by omega
    have h2 : max A B = A := by omega
    rw [h1, h2]
    simp only [if_pos hAB]
  · have h1 : min A B = A := by omega
    have h2 : max A B = B := by omega
    rw [h1, h2]
    simp only [if_neg hAB]

theorem mem_rangeTermIndices (A B : Int) (a b : String) (m k : Nat)
    (hA : pyInt a = some A)
    (hB : (if b.toList.isEmpty then some (m : Int) else pyInt b) = some B) :
    k ∈ rangeTermIndices a b m ↔
      max 1 (min A B) ≤ (k : Int) ∧ (k : Int) ≤ min (m : Int) (max A B) := by
  rw [rangeTermIndices_eq A B a b m hA hB]
  by_cases h : max 1 (min A B) > min (m : Int) (max A B)
  · simp only [if_pos h, List.not_mem_nil, false_iff]
    omega
  · simp only [if_neg h, List.mem_range'_1]
    omega

theorem mem_termContrib_dash (A B : Int) (part : String) (m k : Nat)
    (h1 : part.toList.contains '-' = true)
    (h0 : part.toList.isEmpty = false)
    (hA : pyInt (pyStrip ⟨(splitFirstDash part.toList).1⟩) = some A)
    (hB : (if (pyStrip ⟨(splitFirstDash part.toList).2⟩).toList.isEmpty then some (m : Int)
           else pyInt (pyStrip ⟨(splitFirstDash part.toList).2⟩)) = some B) :
    k ∈ termContrib m part ↔
      max 1 (min A B) ≤ (k : Int) ∧ (k : Int) ≤ min (m : Int) (max A B) := by
  unfold termContrib
  rw [h0, h1]
  simp only [Bool.false_eq_true, if_false, if_true, hA, hB]
  rw [Finset.mem_Icc]
  omega

theorem mem_addTerm (m : Nat) (acc : List Nat) (part : String) (k : Nat) :
    k ∈ addTerm m acc part ↔ k ∈ acc ∨ k ∈ termContrib m part := by
  cases h0 : part.toList.isEmpty with
  | true =>
    unfold addTerm termContrib
    rw [h0]
    simp
  | false =>
    cases h1 : part.toList.contains '-' with
    | true =>
      unfold addTerm
      rw [h0, h1]
      simp only [Bool.false_eq_true, if_false, if_true]
      rw [mem_foldl_insert]
      cases hA : pyInt (pyStrip ⟨(splitFirstDash part.toList).1⟩) with
      | none =>
        have hr : rangeTermIndices (pyStrip ⟨(splitFirstDash part.toList).1⟩)
            (pyStrip ⟨(splitFirstDash part.toList).2⟩) m = [] := by
          unfold rangeTermIndices
          rw [hA]
        have ht : termContrib m part = ∅ := by
          unfold termContrib
          rw [h0, h1]
          simp only [Bool.false_eq_true, if_false, if_true, hA]
        rw [hr, ht]
        simp
      | some A =>
        cases hB : (if (pyStrip ⟨(splitFirstDash part.toList).2⟩).toList.isEmpty
            then some (m : Int) else pyInt (pyStrip ⟨(splitFirstDash part.toList).2⟩)) with
        | none =>
          have hr : rangeTermIndices (pyStrip ⟨(splitFirstDash part.toList).1⟩)
              (pyStrip ⟨(splitFirstDash part.toList).2⟩) m = [] := by
            unfold rangeTermIndices
            rw [hA, hB]
          have ht : termContrib m part = ∅ := by
            unfold termContrib
            rw [h0, h1]
            simp only [Bool.false_eq_true, if_false, if_true, hA, hB]
          rw [hr, ht]
          simp
        | some B =>
          rw [mem_rangeTermIndices A B _ _ m k hA hB,
            mem_termContrib_dash A B part m k h1 h0 hA hB]
    | false =>
      unfold addTerm termContrib
      rw [h0, h1]
      simp only [Bool.false_eq_true, if_false]
      cases hN : pyInt part with
      | none => simp [singleTermIndex, hN]
      | some n =>
        simp [singleTermIndex, hN, List.mem_insert_iff]
        tauto

theorem nodup_addTerm (m : Nat) (acc : List Nat) (part : String) (h : acc.Nodup) :
    (addTerm m acc part).Nodup := by
  unfold addTerm
  split
  · exact h
  · split
    · exact nodup_foldl_insert _ acc h
    · split
      · exact h.insert
      · exact h

theorem mem_foldl_addTerm (m : Nat) (parts : List String) :
    ∀ (acc : List Nat) (k : Nat),
      k ∈ parts.foldl (addTerm m) acc ↔
        k ∈ acc ∨ ∃ part ∈ parts, k ∈ termContrib m part := by
  induction parts with
  | nil => simp
  | cons p ps ih =>
    intro acc k
    simp only [List.foldl_cons, ih, mem_addTerm, List.mem_cons]
    constructor
    · rintro ((h | h) | ⟨q, hq, hk⟩)
      · exact Or.inl h
      · exact Or.inr ⟨p, Or.inl rfl, h⟩
      · exact Or.inr ⟨q, Or.inr hq, hk⟩
    · rintro (h | ⟨q, (rfl | hq), hk⟩)
      · exact Or.inl (Or.inl h)
      · exact Or.inl (Or.inr hk)
      · exact Or.inr ⟨q, hq, hk⟩

theorem nodup_foldl_addTerm (m : Nat) (parts : List String) :
    ∀ acc : List Nat, acc.Nodup → (parts.foldl (addTerm m) acc).Nodup := by
  induction parts with
  | nil => exact fun acc h => h
  | cons p ps ih => exact fun acc h => ih _ (nodup_addTerm m acc p h)

/-- C3 (amended): empty (or all-whitespace) input yields `[1..max_index]`;
otherwise the result is the sorted, duplicate-free union of the
comma-separated terms' contributions, where a bare integer contributes
itself clamped into `[1, max_index]`, a dash term `A-B` (an empty right
side resolving to `max_index`) contributes every integer from
`max 1 (min A B)` up to `min max_index (max A B)` — so a range lying
entirely outside `[1, max_index]` contributes NOTHING rather than a
clamped endpoint — and malformed terms are skipped.  The claim's example
`parse("1,3-5,8-", 12)` holds as stated. -/
theorem parse_range_amended (s : String) (m : Nat) :
    ((pyStrip s).toList.isEmpty = true → parse_range s m = List.range' 1 m)
    ∧ ((pyStrip s).toList.isEmpty = false →
        List.Sorted (· < ·) (parse_range s m)
        ∧ ∀ k, k ∈ parse_range s m ↔
            ∃ part ∈ splitParts (pyStrip s), k ∈ termContrib m part)
    ∧ parse_range "1,3-5,8-" 12 = [1, 3, 4, 5, 8, 9, 10, 11, 12] := by
  refine ⟨?_, ?_, by decide⟩
  · intro h
    unfold parse_range
    rw [h]
    rfl
  · intro h
    unfold parse_range
    rw [h]
    simp only [Bool.false_eq_true, if_false]
    have hnd0 : ((splitParts (pyStrip s)).foldl (addTerm m) []).Nodup :=
      nodup_foldl_addTerm m _ [] List.nodup_nil
    have hperm := List.perm_insertionSort (· ≤ ·)
      ((splitParts (pyStrip s)).foldl (addTerm m) [])
    refine ⟨?_, ?_⟩
    · exact (List.sorted_insertionSort (· ≤ ·) _).lt_of_le (hperm.nodup_iff.mpr hnd0)
    · intro k
      rw [hperm.mem_iff, mem_foldl_addTerm]
      simp

/-- C3 counterexample: under the claim's "endpoints clamped into
`[1, max_index]`" reading, `parse("20-25", 10)` would contribute the
clamped singleton `[10]`; the source instead clamps only the lower
endpoint up and the upper endpoint down, leaving an empty span, and
returns `[]`. -/
theorem parse_range_counterexample :
    parse_range "20-25" 10 = [] ∧ parse_range "20-25" 10 ≠ [10] := by
  constructor
  · decide
  · decide

/-- Witness for `parse_range_amended` at the claim's own example. -/
theorem parse_range_amended_witness :
    List.Sorted (· < ·) (parse_range "1,3-5,8-" 12)
    ∧ ∀ k, k ∈ parse_range "1,3-5,8-" 12 ↔
        ∃ part ∈ splitParts (pyStrip "1,3-5,8-"), k ∈ termContrib 12 part :=
  (parse_range_amended "1,3-5,8-" 12).2.1 rfl

/-! ### Lemmas about `format_range_indicator` and the parse/render
round trip -/

theorem strip_not_empty_of_parts (s part : String)
    (h2 : splitParts (pyStrip s) = [part]) (h3 : part.toList.isEmpty = false) :
    (pyStrip s).toList.isEmpty = false := by
  cases hE : (pyStrip s).toList.isEmpty with
  | false => rfl
  | true =>
    exfalso
    have hnil : (pyStrip s).toList = [] := List.isEmpty_iff.mp hE
    unfold splitParts at h2
    rw [hnil] at h2
    simp only [splitOnCommaAux, List.reverse_nil, List.map_cons, List.map_nil] at h2
    have hp : part = pyStrip ⟨[]⟩ := (List.cons.injEq _ _ _ _ ▸ h2).1.symm
    rw [hp] at h3
    exact absurd h3 (by decide)

theorem sorted_le_range' (a n : Nat) : List.Sorted (· ≤ ·) (List.range' a n) :=
  (List.pairwise_lt_range' a n 1 one_pos).imp le_of_lt

theorem parse_range_eq_range' (s : String) (m A B : Nat) (hAB : A ≤ B)
    (hse : (pyStrip s).toList.isEmpty = false)
    (hmem : ∀ k, k ∈ (splitParts (pyStrip s)).foldl (addTerm m) [] ↔ A ≤ k ∧ k ≤ B) :
    parse_range s m = List.range' A (B - A + 1) := by
  unfold parse_range
  rw [hse]
  simp only [Bool.false_eq_true, if_false]
  have hnd : ((splitParts (pyStrip s)).foldl (addTerm m) []).Nodup :=
    nodup_foldl_addTerm m _ [] List.nodup_nil
  have hndr : (List.range' A (B - A + 1)).Nodup := List.nodup_range' A _ 1 one_pos
  have hmr : ∀ k, k ∈ List.range' A (B - A + 1) ↔ A ≤ k ∧ k ≤ B := by
    intro k
    rw [List.mem_range'_1]
    omega
  have htf : ((splitParts (pyStrip s)).foldl (addTerm m) []).toFinset =
      (List.range' A (B - A + 1)).toFinset := by
    ext k
    rw [List.mem_toFinset, List.mem_toFinset, hmem, hmr]
  exact List.eq_of_perm_of_sorted
    ((List.perm_insertionSort (· ≤ ·) _).trans
      (List.perm_of_nodup_nodup_toFinset_eq hnd hndr htf))
    (List.sorted_insertionSort (· ≤ ·) _) (sorted_le_range' A _)

/-- C4 (amended): the render operation is structurally symmetric with
parse — it splits the expression into the same comma-separated terms,
emits the start and end substrings joined by an underscore for a dash
term (resolving an empty end to `max_index`), the bare term for singles,
joins with commas and prefixes the operation tag, and an empty expression
renders as the tag followed by "0".  The round-trip bound property holds
in the amended form: for an expression that is a SINGLE dash term whose
resolved endpoints satisfy `1 ≤ A ≤ B ≤ max_index`, parse of the same
expression is exactly `[A..B]`, so the tag's resolved bounds equal the
min and max of the parse — but NOT for arbitrary single-range
expressions, where clamping or swapping makes the emitted (unclamped,
unswapped) bounds differ from parse's min/max.  The claim's examples
`render("3-","M",10) = "M3_10"` and
`render("1,3-5,8-","M",12) = "M1,3_5,8_12"` hold as stated. -/
theorem format_range_indicator_amended :
    (∀ (s tag : String) (m : Nat), (pyStrip s).toList.isEmpty = true →
      format_range_indicator s tag m = tag ++ "0")
    ∧ (∀ (s tag part : String) (m A B : Nat),
        splitParts s = [part] → splitParts (pyStrip s) = [part] →
        part.toList.isEmpty = false → part.toList.contains '-' = true →
        pyInt (pyStrip ⟨(splitFirstDash part.toList).1⟩) = some (A : Int) →
        (if (pyStrip ⟨(splitFirstDash part.toList).2⟩).toList.isEmpty
         then some (m : Int)
         else pyInt (pyStrip ⟨(splitFirstDash part.toList).2⟩)) = some (B : Int) →
        1 ≤ A → A ≤ B → B ≤ m →
        format_range_indicator s tag m =
          tag ++ pyStrip ⟨(splitFirstDash part.toList).1⟩ ++ "_" ++
            (if (pyStrip ⟨(splitFirstDash part.toList).2⟩).toList.isEmpty
             then Nat.repr m else pyStrip ⟨(splitFirstDash part.toList).2⟩)
        ∧ parse_range s m = List.range' A (B - A + 1))
    ∧ format_range_indicator "3-" "M" 10 = "M3_10"
    ∧ format_range_indicator "1,3-5,8-" "M" 12 = "M1,3_5,8_12" := by
  refine ⟨?_, ?_, by decide, by decide⟩
  · intro s tag m h
    unfold format_range_indicator
    rw [h]
    rfl
  · intro s tag part m A B h1 h2 h3 h4 hA hB hA1 hAB hBm
    have hse : (pyStrip s).toList.isEmpty = false := strip_not_empty_of_parts s part h2 h3
    constructor
    · unfold format_range_indicator
      rw [hse]
      simp only [Bool.false_eq_true, if_false, h1, List.filterMap_cons, List.filterMap_nil]
      unfold formatPart
      rw [h3, h4]
      simp only [Bool.false_eq_true, if_false, if_true]
      cases hE : (pyStrip ⟨(splitFirstDash part.toList).2⟩).toList.isEmpty with
      | true => simp [joinComma, String.append_assoc]
      | false => simp [joinComma, String.append_assoc]
    · refine parse_range_eq_range' s m A B hAB hse ?_
      intro k
      rw [h2, List.foldl_cons, List.foldl_nil, mem_addTerm]
      have ht := mem_termContrib_dash (A : Int) (B : Int) part m k h4 h3 hA hB
      rw [ht]
      simp only [List.not_mem_nil, false_or]
      omega

/-- C4 counterexample: "0-5" is a single contiguous range expression, yet
the tag renders the raw bounds 0 and 5 while parse of the same expression
is `[1,2,3,4,5]` with min 1 — so the tag's resolved bounds do not equal
the min and max of the parse, contradicting the claim's round-trip
property (the tag matching parse's bounds would be "M1_5"). -/
theorem format_range_indicator_roundtrip_counterexample :
    format_range_indicator "0-5" "M" 10 = "M0_5"
    ∧ parse_range "0-5" 10 = [1, 2, 3, 4, 5]
    ∧ format_range_indicator "0-5" "M" 10 ≠ "M1_5" := by
  refine ⟨by decide, by decide, by decide⟩

/-- Witness for `format_range_indicator_amended` at the open-ended
expression "3-" with bound 10. -/
theorem format_range_indicator_amended_witness :
    format_range_indicator "3-" "M" 10 =
      "M" ++ pyStrip ⟨(splitFirstDash "3-".toList).1⟩ ++ "_" ++
        (if (pyStrip ⟨(splitFirstDash "3-".toList).2⟩).toList.isEmpty
         then Nat.repr 10 else pyStrip ⟨(splitFirstDash "3-".toList).2⟩)
    ∧ parse_range "3-" 10 = List.range' 3 (10 - 3 + 1) :=
  format_range_indicator_amended.2.1 "3-" "M" "3-" 10 3 10 rfl rfl rfl rfl
    (by decide) (by decide) (by decide) (by decide) (by decide)

/-! ### Lemmas about cache validation -/

theorem checkVideoCodec_none_video (e : Option String) : checkVideoCodec e none = true := by
  cases e <;> rfl

theorem checkPixelFormat_none_video (e : Option String) : checkPixelFormat e none = true := by
  cases e <;> rfl

theorem checkAudioCodec_none_audio (e : Option String) : checkAudioCodec e none = true := by
  cases e <;> rfl

theorem checkSampleRate_none_audio (e : Option String) : checkSampleRate e none = true := by
  cases e <;> rfl

theorem checkDuration_none_probe (e : Option ℚ) : checkDuration e none = true := by
  cases e <;> rfl

/-- When steps 1-4 all pass, validation reduces to the step-5 probe
checks. -/
theorem is_cached_file_valid_step5_eq (st : CacheFsState) (current stored : ExpectedParams)
    (smt : ℚ)
    (hu : st.use_cache = true) (hte : st.tempExists = true) (hsz : st.tempSize ≠ 0)
    (hsm : st.sourceMtime = some smt) (hmt : smt < st.tempMtime)
    (hsc : st.sidecarExists = true) (hsp : st.sidecarParse = some stored)
    (hkp : keyParamsMatch stored current = true) :
    is_cached_file_valid st current =
      (checkResolution current.resolution st.probe.video &&
        checkVideoCodec current.video_codec st.probe.video &&
        checkPixelFormat current.pixel_format st.probe.video &&
        checkAudioCodec current.audio_codec st.probe.audio &&
        checkSampleRate current.sample_rate st.probe.audio &&
        checkDuration current.duration st.probedDuration) := by
  unfold is_cached_file_valid
  rw [hu, hte, hsm, hsc, hsp]
  have h1 : (st.tempSize == 0) = false := by simpa using hsz
  have h2 : ¬ st.tempMtime ≤ smt := not_le.mpr hmt
  simp [h1, h2, hkp]

/-- C1: cache validation returns true only if caching is enabled, the
artifact exists with non-zero size, the artifact is strictly newer than
the source, the sidecar exists and parses, and the six key parameters
agree exactly between the stored and the freshly computed fingerprint;
when caching is globally disabled validation is false for every input
and `save_cache_info` persists nothing. -/
theorem is_cached_file_valid_only_if :
    (∀ (st : CacheFsState) (current : ExpectedParams),
      is_cached_file_valid st current = true →
        st.use_cache = true ∧ st.tempExists = true ∧ st.tempSize ≠ 0 ∧
        (∃ smt, st.sourceMtime = some smt ∧ smt < st.tempMtime) ∧
        st.sidecarExists = true ∧
        ∃ stored, st.sidecarParse = some stored ∧
          stored.video_codec = current.video_codec ∧
          stored.audio_codec = current.audio_codec ∧
          stored.resolution = current.resolution ∧
          stored.duration = current.duration ∧
          stored.pixel_format = current.pixel_format ∧
          stored.sample_rate = current.sample_rate)
    ∧ (∀ (st : CacheFsState) (current : ExpectedParams),
        st.use_cache = false → is_cached_file_valid st current = false)
    ∧ (∀ (p : String) (info : ExpectedParams), save_cache_info false p info = none) := by
  refine ⟨?_, ?_, fun p info => rfl⟩
  · intro st current h
    unfold is_cached_file_valid at h
    split at h
    · simp at h
    · rename_i hu
      split at h
      · simp at h
      · rename_i hts
        split at h
        · simp at h
        · rename_i smt hsm
          split at h
          · simp at h
          · rename_i hmt
            split at h
            · simp at h
            · rename_i hsc
              split at h
              · simp at h
              · rename_i stored hsp
                split at h
                · simp at h
                · rename_i hkp
                  simp at hu hts hsc hkp
                  unfold keyParamsMatch at hkp
                  simp only [Bool.and_eq_true, beq_iff_eq] at hkp
                  exact ⟨hu, hts.1, hts.2, ⟨smt, hsm, lt_of_not_le hmt⟩, hsc,
                    stored, hsp, hkp.1.1.1.1.1, hkp.1.1.1.1.2, hkp.1.1.1.2,
                    hkp.1.1.2, hkp.1.2, hkp.2⟩
  · intro st current h
    unfold is_cached_file_valid
    rw [h]
    rfl

/-- Witness for `is_cached_file_valid_only_if` at the concrete passing
state `stValid`. -/
theorem is_cached_file_valid_only_if_witness :
    stValid.use_cache = true ∧ stValid.tempExists = true ∧ stValid.tempSize ≠ 0 ∧
    (∃ smt, stValid.sourceMtime = some smt ∧ smt < stValid.tempMtime) ∧
    stValid.sidecarExists = true ∧
    ∃ stored, stValid.sidecarParse = some stored ∧
      stored.video_codec = fpAll.video_codec ∧
      stored.audio_codec = fpAll.audio_codec ∧
      stored.resolution = fpAll.resolution ∧
      stored.duration = fpAll.duration ∧
      stored.pixel_format = fpAll.pixel_format ∧
      stored.sample_rate = fpAll.sample_rate :=
  is_cached_file_valid_only_if.1 stValid fpAll (by
    have hdur : checkDuration fpAll.duration stValid.probedDuration = true := by
      norm_num [checkDuration, fpAll, stValid, abs_le]
    have hkp : keyParamsMatch fpAll fpAll = true := by simp [keyParamsMatch]
    rw [is_cached_file_valid_step5_eq stValid fpAll fpAll 1 rfl rfl (by norm_num [stValid])
      rfl (by norm_num [stValid]) rfl rfl hkp, hdur]
    decide)

/-- C5 (amended): in step 5 only the resolution check treats a missing
video stream conservatively (a state whose steps 1-4 pass but whose probe
reports no video stream is invalid whenever a resolution is expected);
for video codec, pixel format, audio codec and sample rate, a probe
result without the corresponding stream information causes the check to
be SKIPPED rather than to invalidate, and a failing duration probe is
likewise forgiven — so with no expected resolution, validation succeeds
even though every other expected field is unverifiable. -/
theorem step5_missing_stream_amended :
    (∀ r : String, checkResolution (some r) none = false)
    ∧ (∀ c : String, checkVideoCodec (some c) none = true)
    ∧ (∀ p : String, checkPixelFormat (some p) none = true)
    ∧ (∀ c : String, checkAudioCodec (some c) none = true)
    ∧ (∀ r : String, checkSampleRate (some r) none = true)
    ∧ (∀ d : ℚ, checkDuration (some d) none = true)
    ∧ (∀ (st : CacheFsState) (current : ExpectedParams) (stored : ExpectedParams) (smt : ℚ),
        st.use_cache = true → st.tempExists = true → st.tempSize ≠ 0 →
        st.sourceMtime = some smt → smt < st.tempMtime →
        st.sidecarExists = true → st.sidecarParse = some stored →
        keyParamsMatch stored current = true →
        st.probe.video = none → st.probe.audio = none → st.probedDuration = none →
        (current.resolution = none → is_cached_file_valid st current = true)
        ∧ (∀ r, current.resolution = some r → is_cached_file_valid st current = false)) := by
  refine ⟨fun r => rfl, fun c => rfl, fun p => rfl, fun c => rfl, fun r => rfl,
    fun d => rfl, ?_⟩
  intro st current stored smt hu hte hsz hsm hmt hsc hsp hkp hpv hpa hpd
  have hbase := is_cached_file_valid_step5_eq st current stored smt hu hte hsz hsm hmt
    hsc hsp hkp
  constructor
  · intro hres
    rw [hbase, hres, hpv, hpa, hpd]
    rw [checkVideoCodec_none_video, checkPixelFormat_none_video,
      checkAudioCodec_none_audio, checkSampleRate_none_audio, checkDuration_none_probe]
    rfl
  · intro r hres
    rw [hbase, hres, hpv]
    rfl

/-- C5 counterexample: with an expected video codec (and no expected
resolution), a probe that reports no stream information at all still
validates — the claim instead demands invalidation whenever an expected
key field cannot be confirmed. -/
theorem step5_missing_stream_counterexample :
    fpCodecOnly.video_codec = some "libx264"
    ∧ stMissingStream.probe.video = none
    ∧ is_cached_file_valid stMissingStream fpCodecOnly = true := by
  refine ⟨rfl, rfl, ?_⟩
  have hkp : keyParamsMatch fpCodecOnly fpCodecOnly = true := by simp [keyParamsMatch]
  rw [is_cached_file_valid_step5_eq stMissingStream fpCodecOnly fpCodecOnly 1 rfl rfl
    (by norm_num [stMissingStream]) rfl (by norm_num [stMissingStream]) rfl rfl hkp]
  decide

/-- Witness for `step5_missing_stream_amended` at `stMissingStream`. -/
theorem step5_missing_stream_amended_witness :
    (fpCodecOnly.resolution = none →
      is_cached_file_valid stMissingStream fpCodecOnly = true)
    ∧ (∀ r, fpCodecOnly.resolution = some r →
        is_cached_file_valid stMissingStream fpCodecOnly = false) :=
  step5_missing_stream_amended.2.2.2.2.2.2 stMissingStream fpCodecOnly fpCodecOnly 1
    rfl rfl (by norm_num [stMissingStream]) rfl (by norm_num [stMissingStream]) rfl rfl
    (by simp [keyParamsMatch]) rfl rfl rfl

/-- C6 (amended): the codec normalization map collapses an encoder
backend identifier and its hardware-accelerated variants to one canonical
name, and the step-5 probe comparison normalizes both sides, so a
fingerprint recorded with a backend identifier validates against a probe
reporting the canonical codec name.  However, the step-4 key-parameter
comparison is RAW equality, so switching encoder backends between runs
(stored "libx264" vs freshly computed "h264_nvenc") DOES invalidate the
cache. -/
theorem normalize_codec_amended :
    normalize_codec_name "libx264" = "h264"
    ∧ normalize_codec_name "h264_nvenc" = "h264"
    ∧ normalize_codec_name "h264_qsv" = "h264"
    ∧ normalize_codec_name "libfdk_aac" = "aac"
    ∧ normalize_codec_name "aac" = "aac"
    ∧ (∀ (ec : String) (v : VideoStreamInfo),
        normalize_codec_name ec = normalize_codec_name v.codec →
        checkVideoCodec (some ec) (some v) = true)
    ∧ (∀ (ec : String) (a : AudioStreamInfo),
        normalize_codec_name ec = normalize_codec_name a.codec →
        checkAudioCodec (some ec) (some a) = true)
    ∧ (∀ stored current : ExpectedParams,
        stored.video_codec = some "libx264" →
        current.video_codec = some "h264_nvenc" →
        keyParamsMatch stored current = false) := by
  refine ⟨by decide, by decide, by decide, by decide, by decide, ?_, ?_, ?_⟩
  · intro ec v h
    unfold checkVideoCodec
    simp [h]
  · intro ec a h
    unfold checkAudioCodec
    simp [h]
  · intro stored current h1 h2
    unfold keyParamsMatch
    rw [h1, h2]
    simp

/-- C6 counterexample: "libx264" and "h264_nvenc" normalize to the same
canonical codec, yet a run that switches the encoder backend is
invalidated by the raw step-4 comparison, contradicting the claim that
switching encoder backends between runs does not invalidate the cache. -/
theorem normalize_backend_switch_counterexample :
    normalize_codec_name "libx264" = normalize_codec_name "h264_nvenc"
    ∧ is_cached_file_valid stBackendSwitch fpCurrentNvenc = false := by
  refine ⟨by decide, ?_⟩
  have hkp : keyParamsMatch fpCodecOnly fpCurrentNvenc = false := by
    unfold keyParamsMatch
    have : (fpCodecOnly.video_codec == fpCurrentNvenc.video_codec) = false := by decide
    rw [this]
    rfl
  have hmt : ¬ ((2 : ℚ) ≤ 1) := by norm_num
  simp [is_cached_file_valid, stBackendSwitch, hkp, hmt]

/-- Witness for `normalize_codec_amended`: the stored backend identifier
"libx264" validates against a probe reporting the canonical "h264". -/
theorem normalize_codec_amended_witness :
    checkVideoCodec (some "libx264")
      (some { codec := "h264", resolution := "1920x1080", pix_fmt := "yuv420p" }) = true :=
  normalize_codec_amended.2.2.2.2.2.1 "libx264"
    { codec := "h264", resolution := "1920x1080", pix_fmt := "yuv420p" } (by decide)
/-! ### Lemmas about artifact and sidecar paths -/

theorem digitChar_isDigit (m : Nat) (h : m < 10) : (Nat.digitChar m).isDigit = true := by
  interval_cases m <;> decide

theorem toDigitsCore_digits :
    ∀ (f n : Nat) (acc : List Char), (∀ c ∈ acc, c.isDigit = true) →
      ∀ c ∈ Nat.toDigitsCore 10 f n acc, c.isDigit = true := by
  intro f
  induction f with
  | zero => intro n acc hacc; exact hacc
  | succ f ih =>
    intro n acc hacc c hc
    rw [show Nat.toDigitsCore 10 (f + 1) n acc =
        if n / 10 = 0 then (n % 10).digitChar :: acc
        else Nat.toDigitsCore 10 f (n / 10) ((n % 10).digitChar :: acc) from rfl] at hc
    have hd : ∀ x ∈ Nat.digitChar (n % 10) :: acc, x.isDigit = true := by
      intro x hx
      rcases List.mem_cons.mp hx with rfl | hx
      · exact digitChar_isDigit _ (Nat.mod_lt _ (by omega))
      · exact hacc x hx
    by_cases h0 : n / 10 = 0
    · rw [if_pos h0] at hc
      exact hd c hc
    · rw [if_neg h0] at hc
      exact ih (n / 10) _ hd c hc

theorem repr_digits (n : Nat) : ∀ c ∈ (Nat.repr n).toList, c.isDigit = true := by
  have h : (Nat.repr n).toList = Nat.toDigitsCore 10 (n + 1) n [] := rfl
  rw [h]
  exact toDigitsCore_digits (n + 1) n [] (by simp)

theorem not_dot_mem_repr (n : Nat) : '.' ∉ (Nat.repr n).toList := by
  intro h
  have := repr_digits n _ h
  exact absurd this (by decide)

theorem not_slash_mem_repr (n : Nat) : '/' ∉ (Nat.repr n).toList := by
  intro h
  have := repr_digits n _ h
  exact absurd this (by decide)

theorem tempPathFor_toList (n : Nat) :
    (tempPathFor n).toList =
      "temp_".toList ++ '/' ::
        ("temp_".toList ++ (Nat.repr (n - 1)).toList ++ '.' :: "mp4".toList) := by
  show ("temp_" ++ "/" ++ "temp_" ++ Nat.repr (n - 1) ++ ".mp4").data = _
  simp [String.data_append]

/-- The sidecar path computed by `with_suffix('.cache')` for the slot
artifact: same directory, same stem, `.cache` extension. -/
theorem pyWithSuffix_tempPathFor (n : Nat) :
    pyWithSuffix (tempPathFor n) ".cache" =
      "temp_" ++ "/" ++ "temp_" ++ Nat.repr (n - 1) ++ ".cache" := by
  have hslash : '/' ∉ ("temp_".toList ++ (Nat.repr (n - 1)).toList ++ '.' :: "mp4".toList) := by
    intro hmem
    simp only [List.mem_append, List.mem_cons] at hmem
    rcases hmem with (h | h) | h
    · exact absurd h (by decide)
    · exact not_slash_mem_repr (n - 1) h
    · rcases h with h | h
      · exact absurd h (by decide)
      · exact absurd h (by decide)
  have hli : lastIndexOf '/' (tempPathFor n).toList = some 5 := by
    rw [tempPathFor_toList]
    exact lastIndexOf_append_cons '/' _ _ hslash
  have htake : (tempPathFor n).toList.take 6 = "temp_".toList ++ ['/'] := by
    rw [tempPathFor_toList]
    have h6 : (6 : Nat) = "temp_".toList.length + 1 := rfl
    rw [h6, List.take_append]
    rfl
  have hdrop : (tempPathFor n).toList.drop 6 =
      "temp_".toList ++ (Nat.repr (n - 1)).toList ++ '.' :: "mp4".toList := by
    rw [tempPathFor_toList]
    have h6 : (6 : Nat) = "temp_".toList.length + 1 := rfl
    rw [h6, List.drop_append]
    rfl
  have hstem : pathStem ⟨"temp_".toList ++ (Nat.repr (n - 1)).toList ++ '.' :: "mp4".toList⟩ =
      ⟨"temp_".toList ++ (Nat.repr (n - 1)).toList⟩ := by
    have hd : lastIndexOf '.'
        ("temp_".toList ++ (Nat.repr (n - 1)).toList ++ '.' :: "mp4".toList) =
        some ("temp_".toList ++ (Nat.repr (n - 1)).toList).length :=
      lastIndexOf_append_cons '.' _ _ (by decide)
    simp only [String.toList] at hd
    simp only [pathStem, String.toList, hd]
    rw [if_pos]
    · congr 1
      exact List.take_left' rfl
    · constructor
      · simp
      · simp
  unfold pyWithSuffix
  rw [hli]
  simp only [htake, hdrop, hstem]
  ext1
  simp [String.data_append]

/-- C9 (amended): the artifact for the plan slot of 1-based index `n` is
produced at the deterministic path `temp_/temp_{n-1}.mp4` — the artifact
file name uses the prefix "temp_", NOT "slot_" as the claim states — with
artifact numbering 0-based against 1-based plan numbering, and its cache
sidecar is the same stem with a `.cache` extension. -/
theorem artifact_path_amended :
    (∀ n : Nat, tempPathFor n = "temp_" ++ "/" ++ "temp_" ++ Nat.repr (n - 1) ++ ".mp4")
    ∧ (∀ (n : Nat) (info : ExpectedParams),
        save_cache_info true (tempPathFor n) info =
          some ("temp_" ++ "/" ++ "temp_" ++ Nat.repr (n - 1) ++ ".cache", info)) := by
  refine ⟨fun n => rfl, fun n info => ?_⟩
  unfold save_cache_info
  rw [pyWithSuffix_tempPathFor]
  rfl

/-- C9 counterexample: for slot index 1 the artifact path is
`temp_/temp_0.mp4`, not the `temp_/slot_0.mp4` demanded by the claim's
bit-exact `slot_{n-1}.mp4` convention. -/
theorem artifact_path_counterexample :
    tempPathFor 1 = "temp_/temp_0.mp4" ∧ tempPathFor 1 ≠ "temp_/slot_0.mp4" := by
  constructor
  · decide
  · decide

/-! ### Lemmas about merge selection and the concatenation manifest -/

theorem mergeScan_snd (sel : List Nat) (ex : String → Bool) :
    ∀ order : List Slot,
      (mergeScan sel ex order).2 =
        (order.filter (fun s => sel.contains s.index)).map (fun s => tempPathFor s.index) := by
  intro order
  induction order with
  | nil => rfl
  | cons s rest ih =>
    cases hc : sel.contains s.index with
    | true =>
      have hm : s.index ∈ sel := by simpa using hc
      simp [mergeScan, hc, hm, ih, List.filter_cons]
    | false =>
      have hm : ¬ s.index ∈ sel := by simpa using hc
      simp [mergeScan, hc, hm, ih, List.filter_cons]

theorem determine_merge_snd (sel : List Nat) (ex : String → Bool) (order : List Slot) :
    (determine_files_to_process "M" sel order ex).2 = (mergeScan sel ex order).2 := by
  unfold determine_files_to_process
  rw [if_pos rfl]
  cases h : (mergeScan sel ex order).1.isEmpty <;> simp [h]

theorem contains_congr_of_mem_iff (sel1 sel2 : List Nat)
    (hsel : ∀ i, i ∈ sel1 ↔ i ∈ sel2) : ∀ i, sel1.contains i = sel2.contains i := by
  intro i
  cases h1 : sel1.contains i with
  | true =>
    have hm : i ∈ sel1 := by simpa using h1
    have hm2 : i ∈ sel2 := (hsel i).mp hm
    have h2 : sel2.contains i = true := by simpa using hm2
    rw [h2]
  | false =>
    cases h2 : sel2.contains i with
    | false => rfl
    | true =>
      exfalso
      have hm : i ∈ sel2 := by simpa using h2
      have hm1 : i ∈ sel1 := (hsel i).mpr hm
      have : sel1.contains i = true := by simpa using hm1
      rw [h1] at this
      exact Bool.false_ne_true this

/-- In the merge flow, a non-empty pre-built temp-file list is used
verbatim as the manifest, one line per artifact. -/
theorem manifestEntries_merge (fp : List Slot) (tf : List String) (ex : String → Bool)
    (h : tf ≠ []) : manifestEntries fp tf ex = tf.map manifestLine := by
  unfold manifestEntries
  have hE : tf.isEmpty = false := by
    cases tf with
    | nil => exact absurd rfl h
    | cons a l => rfl
  rw [hE]
  simp

/-- C7: for every selection of plan-slot indices, the merge flow produces
the temp-file list by walking the processing order (so its entries are
the selected slots' artifact paths in plan order); the list is invariant
under the entry order of the selection, its index sequence is strictly
ascending whenever the plan's indices are, and the concatenation manifest
lists exactly those artifact paths, one line each. -/
theorem merge_manifest_order (order : List Slot) (sel1 sel2 : List Nat)
    (ex : String → Bool)
    (hsel : ∀ i, i ∈ sel1 ↔ i ∈ sel2)
    (hsorted : List.Pairwise (fun a b => a.index < b.index) order) :
    (determine_files_to_process "M" sel1 order ex).2 =
      (order.filter (fun s => sel1.contains s.index)).map (fun s => tempPathFor s.index)
    ∧ (determine_files_to_process "M" sel2 order ex).2 =
      (determine_files_to_process "M" sel1 order ex).2
    ∧ List.Pairwise (· < ·)
        ((order.filter (fun s => sel1.contains s.index)).map Slot.index)
    ∧ (∀ (fp : List Slot) (tf : List String), tf ≠ [] →
        manifestEntries fp tf ex = tf.map manifestLine) := by
  refine ⟨?_, ?_, ?_, fun fp tf h => manifestEntries_merge fp tf ex h⟩
  · rw [determine_merge_snd, mergeScan_snd]
  · rw [determine_merge_snd, determine_merge_snd, mergeScan_snd, mergeScan_snd]
    have hc := contains_congr_of_mem_iff sel1 sel2 hsel
    rw [List.filter_congr (fun s _ => (hc s.index).symm)]
  · rw [List.pairwise_map]
    exact List.Pairwise.filter _ hsorted

/-- Witness for `merge_manifest_order`: a five-slot plan with the user
selection entered as "5,1,3" still yields the manifest paths in ascending
slot order 1,3,5. -/
theorem merge_manifest_order_witness :
    (determine_files_to_process "M" [5, 1, 3]
        [⟨1, "a.mp4", "VIDEO"⟩, ⟨2, "b.mp4", "VIDEO"⟩, ⟨3, "c.mp4", "VIDEO"⟩,
         ⟨4, "d.mp4", "VIDEO"⟩, ⟨5, "e.mp3", "AUDIO"⟩] (fun _ => true)).2 =
      ([⟨1, "a.mp4", "VIDEO"⟩, ⟨2, "b.mp4", "VIDEO"⟩, ⟨3, "c.mp4", "VIDEO"⟩,
        ⟨4, "d.mp4", "VIDEO"⟩, ⟨5, "e.mp3", "AUDIO"⟩].filter
          (fun s : Slot => [5, 1, 3].contains s.index)).map
        (fun s => tempPathFor s.index)
    ∧ (determine_files_to_process "M" [1, 3, 5]
        [⟨1, "a.mp4", "VIDEO"⟩, ⟨2, "b.mp4", "VIDEO"⟩, ⟨3, "c.mp4", "VIDEO"⟩,
         ⟨4, "d.mp4", "VIDEO"⟩, ⟨5, "e.mp3", "AUDIO"⟩] (fun _ => true)).2 =
      (determine_files_to_process "M" [5, 1, 3]
        [⟨1, "a.mp4", "VIDEO"⟩, ⟨2, "b.mp4", "VIDEO"⟩, ⟨3, "c.mp4", "VIDEO"⟩,
         ⟨4, "d.mp4", "VIDEO"⟩, ⟨5, "e.mp3", "AUDIO"⟩] (fun _ => true)).2 := by
  have h := merge_manifest_order
    [⟨1, "a.mp4", "VIDEO"⟩, ⟨2, "b.mp4", "VIDEO"⟩, ⟨3, "c.mp4", "VIDEO"⟩,
     ⟨4, "d.mp4", "VIDEO"⟩, ⟨5, "e.mp3", "AUDIO"⟩] [5, 1, 3] [1, 3, 5] (fun _ => true)
    (by intro i; simp; tauto) (by decide)
  exact ⟨h.1, h.2.1⟩

theorem buildTempFiles_eq (ex : String → Bool) :
    ∀ fp : List Slot,
      buildTempFiles ex fp =
        (fp.filter (fun s => ex (tempPathFor s.index))).map (fun s => tempPathFor s.index) := by
  intro fp
  induction fp with
  | nil => rfl
  | cons s rest ih =>
    cases h : ex (tempPathFor s.index) with
    | true => simp [buildTempFiles, h, ih, List.filter_cons]
    | false => simp [buildTempFiles, h, ih, List.filter_cons]

/-- C10: in the non-subset-merge flow the manifest is built from the
just-processed slots by silently omitting every slot whose artifact does
not exist at manifest-build time — the manifest equals exactly the lines
of the existing artifacts (there is no failure or deferral branch in this
flow), and consequently every manifest line names an artifact that
existed when the manifest was written. -/
theorem manifest_existing_only (fp : List Slot) (ex : String → Bool) :
    manifestEntries fp [] ex =
      (fp.filter (fun s => ex (tempPathFor s.index))).map
        (fun s => manifestLine (tempPathFor s.index))
    ∧ ∀ e ∈ manifestEntries fp [] ex,
        ∃ s ∈ fp, ex (tempPathFor s.index) = true ∧
          e = manifestLine (tempPathFor s.index) := by
  have h1 : manifestEntries fp [] ex =
      (fp.filter (fun s => ex (tempPathFor s.index))).map
        (fun s => manifestLine (tempPathFor s.index)) := by
    unfold manifestEntries
    simp [buildTempFiles_eq, List.map_map, Function.comp]
  refine ⟨h1, ?_⟩
  intro e he
  rw [h1] at he
  obtain ⟨s, hs, rfl⟩ := List.mem_map.mp he
  obtain ⟨hmem, hex⟩ := List.mem_filter.mp hs
  exact ⟨s, hmem, hex, rfl⟩

/-- Witness for `manifest_existing_only`: of two processed slots only the
second artifact exists, and the single manifest line names it. -/
theorem manifest_existing_only_witness :
    ∃ s ∈ [(⟨1, "a.mp4", "VIDEO"⟩ : Slot), ⟨2, "b.mp4", "VIDEO"⟩],
      (fun p => p == "temp_" ++ "/" ++ "temp_1.mp4") (tempPathFor s.index) = true ∧
        manifestLine (tempPathFor 2) = manifestLine (tempPathFor s.index) :=
  (manifest_existing_only [⟨1, "a.mp4", "VIDEO"⟩, ⟨2, "b.mp4", "VIDEO"⟩]
    (fun p => p == "temp_" ++ "/" ++ "temp_1.mp4")).2
    (manifestLine (tempPathFor 2)) (by decide)

/-! ### Lemmas about audio-slot background resolution and fallback -/

/-- C8: background resolution follows the order explicit override (when
it exists), first same-stem PNG (case-insensitive), first reserved
`audio_background` PNG (case-insensitive), else solid black; when no
real background is found the encoder is invoked exactly once with the
solid-black command; and when a chosen real background's encode fails
the slot retries exactly once with solid black, reporting failure only
if that retry also fails. -/
theorem audio_background_resolution_and_fallback :
    (∀ (filename c : String) (fsExists : String → Bool) (dir : List DirEntry),
      fsExists c = true →
      find_audio_background filename (some c) fsExists dir = some c)
    ∧ (∀ (filename : String) (custom : Option String) (fsExists : String → Bool)
        (dir : List DirEntry) (e : DirEntry),
        (custom = none ∨ ∃ c, custom = some c ∧ fsExists c = false) →
        dir.find? (fun e => e.isFile && pyLower (pathSuffix e.name) == ".png" &&
          pyLower (pathStem e.name) == pyLower (pathStem filename)) = some e →
        find_audio_background filename custom fsExists dir = some e.name)
    ∧ (∀ (filename : String) (custom : Option String) (fsExists : String → Bool)
        (dir : List DirEntry) (e : DirEntry),
        (custom = none ∨ ∃ c, custom = some c ∧ fsExists c = false) →
        dir.find? (fun e => e.isFile && pyLower (pathSuffix e.name) == ".png" &&
          pyLower (pathStem e.name) == pyLower (pathStem filename)) = none →
        dir.find? (fun e => e.isFile && pyLower (pathSuffix e.name) == ".png" &&
          pyLower (pathStem e.name) == "audio_background") = some e →
        find_audio_background filename custom fsExists dir = some e.name)
    ∧ (∀ (filename : String) (custom : Option String) (fsExists : String → Bool)
        (dir : List DirEntry),
        (custom = none ∨ ∃ c, custom = some c ∧ fsExists c = false) →
        dir.find? (fun e => e.isFile && pyLower (pathSuffix e.name) == ".png" &&
          pyLower (pathStem e.name) == pyLower (pathStem filename)) = none →
        dir.find? (fun e => e.isFile && pyLower (pathSuffix e.name) == ".png" &&
          pyLower (pathStem e.name) == "audio_background") = none →
        find_audio_background filename custom fsExists dir = none)
    ∧ (∀ (filename : String) (custom : Option String) (fsExists : String → Bool)
        (dir : List DirEntry) (run : Option String → Bool),
        find_audio_background (pathBaseName filename) custom fsExists dir = none →
        process_audio_file filename custom fsExists dir run = (run none, [none]))
    ∧ (∀ (filename : String) (custom : Option String) (fsExists : String → Bool)
        (dir : List DirEntry) (run : Option String → Bool) (bg : String),
        find_audio_background (pathBaseName filename) custom fsExists dir = some bg →
        run (some bg) = false →
        process_audio_file filename custom fsExists dir run = (run none, [some bg, none]))
    ∧ (∀ (filename : String) (custom : Option String) (fsExists : String → Bool)
        (dir : List DirEntry) (run : Option String → Bool) (bg : String),
        find_audio_background (pathBaseName filename) custom fsExists dir = some bg →
        run (some bg) = true →
        process_audio_file filename custom fsExists dir run = (true, [some bg])) := by
  refine ⟨?_, ?_, ?_, ?_, ?_, ?_, ?_⟩
  · intro filename c fsExists dir hex
    simp [find_audio_background, hex]
  · intro filename custom fsExists dir e hcu hfind
    rcases hcu with rfl | ⟨c, rfl, hex⟩
    · simp [find_audio_background, hfind]
    · simp [find_audio_background, hfind, hex]
  · intro filename custom fsExists dir e hcu hfind1 hfind2
    rcases hcu with rfl | ⟨c, rfl, hex⟩
    · simp [find_audio_background, hfind1, hfind2]
    · simp [find_audio_background, hfind1, hfind2, hex]
  · intro filename custom fsExists dir hcu hfind1 hfind2
    rcases hcu with rfl | ⟨c, rfl, hex⟩
    · simp [find_audio_background, hfind1, hfind2]
    · simp [find_audio_background, hfind1, hfind2, hex]
  · intro filename custom fsExists dir run hfind
    simp [process_audio_file, hfind]
  · intro filename custom fsExists dir run bg hfind hrun
    simp [process_audio_file, hfind, hrun]
  · intro filename custom fsExists dir run bg hfind hrun
    simp [process_audio_file, hfind, hrun]

/-- Witness for `audio_background_resolution_and_fallback`: with no
matching PNG and no reserved background, the encoder runs exactly once
on the solid-black command; with a matching same-stem PNG whose encode
fails, the slot retries exactly once with solid black and succeeds. -/
theorem audio_background_resolution_and_fallback_witness :
    process_audio_file "x.mp3" none (fun _ => false) []
        (fun o => o.isNone) = ((fun (o : Option String) => o.isNone) none, [none])
    ∧ process_audio_file "song.mp3" none (fun _ => false) [⟨"Song.PNG", true⟩]
        (fun o => o.isNone) =
      ((fun (o : Option String) => o.isNone) none, [some "Song.PNG", none]) :=
  ⟨audio_background_resolution_and_fallback.2.2.2.2.1 "x.mp3" none (fun _ => false)
      [] (fun o => o.isNone) (by decide),
   audio_background_resolution_and_fallback.2.2.2.2.2.1 "song.mp3" none
      (fun _ => false) [⟨"Song.PNG", true⟩] (fun o => o.isNone) "Song.PNG"
      (by decide) (by decide)⟩

end Media2vid
